import Mathlib

/-
Verification of the Campus-Navigator core (graph.h, application.cpp) against
its natural-language specification.

Shallow embedding notes:
* C++ `double` values are modelled by `Dbl`: either a finite rational
  (`Dbl.fin q`) or `Dbl.inf`, which stands for the program's global sentinel
  `INF = numeric_limits<double>::max()` (application.cpp line 46).  All
  arithmetic the program performs on distances is additions of small
  non-negative weights and comparisons against `INF`, for which this model is
  exact (`DBL_MAX + w` rounds to `DBL_MAX` for campus-scale `w`).
* `std::unordered_map` / `std::map` are modelled as association lists; the
  program never iterates over `edgeMap`, `distances` or `predecessors`, only
  queries them by key, so iteration order is irrelevant.  `.at` on a missing
  key throws `std::out_of_range`; we model a throw by returning `none`.
* `std::priority_queue` with the `prioritize` comparator is a min-heap on the
  `double` component.  The C++ standard leaves the pop order of equal-priority
  entries unspecified (the spec's section 9 flags this as an explicitly open
  tie-breaking question); we model the queue as a list with FIFO pops among
  equal keys.  The concrete scenarios proved below were chosen so that the
  relevant behaviour is independent of the tie order.
* The geodesic primitives `distBetween2Points` / `centerBetween2Points`
  (dist.h) are excluded by the spec ("treated as external collaborators,
  assumed correct"), so the application model is parameterised by them.
-/

/- The Batteries rational-arithmetic definitions are `irreducible`, which
blocks `decide` on concrete program runs; restore the default reducibility
for this development. -/
attribute [local semireducible] Rat.add Rat.mul Rat.inv Rat.sub

/-- Model of C++ `double` as used by the program: a finite rational or the
`INF = numeric_limits<double>::max()` sentinel. -/
inductive Dbl where
  | fin (q : ℚ)
  | inf
deriving DecidableEq

namespace Dbl

/-- Model of `<` on doubles, with `inf` standing for `DBL_MAX` (larger than
every distance the program can produce). -/
def ltb : Dbl → Dbl → Bool
  | fin a, fin b => a < b
  | fin _, inf => true
  | inf, _ => false

/-- Model of `+` on doubles: `DBL_MAX + w` rounds back to `DBL_MAX` for the
small weights the program adds. -/
def add : Dbl → Dbl → Dbl
  | fin a, fin b => fin (a + b)
  | _, _ => inf

end Dbl

/-- First-match lookup in an association list: models `map::at` /
`map::count` (the maps in the program are only accessed by key). -/
def lookupA {α : Type} : List (Int × α) → Int → Option α
  | [], _ => none
  | (k, v) :: t, x => if k = x then some v else lookupA t x

/-- Remove the entry with the given key, if present: models `map::erase`. -/
def eraseA {α : Type} : List (Int × α) → Int → List (Int × α)
  | [], _ => []
  | (k, v) :: t, x => if k = x then t else (k, v) :: eraseA t x

/-- Insert a key/value pair only if the key is absent: models `map::emplace`. -/
def emplaceA {α : Type} (l : List (Int × α)) (k : Int) (v : α) : List (Int × α) :=
  if (lookupA l k).isSome then l else l ++ [(k, v)]

/-- Replace the value stored at an existing key: models `map.at(k) = v`. -/
def setA {α : Type} : List (Int × α) → Int → α → List (Int × α)
  | [], _, _ => []
  | (k, v) :: t, x, nv => if k = x then (x, nv) :: t else (k, v) :: setA t x nv

/-- Model of the `EdgeData` struct of graph.h (lines 24-27). -/
structure EdgeData where
  toVert : Int
  toWeight : ℚ
deriving DecidableEq

/-- Model of the templated `graph` class of graph.h instantiated, as in the
application, at `graph<long long, double>`: counters, the `Vertices` vector
and the adjacency `edgeMap`. -/
structure Grph where
  vertCount : Int
  edgeCount : Int
  Vertices : List Int
  edgeMap : List (Int × List EdgeData)
deriving DecidableEq

namespace Grph

/-- The graph constructor (graph.h lines 37-40). -/
def empty : Grph := ⟨0, 0, [], []⟩

/-- `NumVertices` (graph.h lines 45-47). -/
def NumVertices (g : Grph) : Int := g.vertCount

/-- `NumEdges` (graph.h lines 52-54). -/
def NumEdges (g : Grph) : Int := g.edgeCount

/-- `addVertex` (graph.h lines 59-71): no-op returning `false` if the vertex
key is already in `edgeMap`, otherwise add it with an empty edge vector, push
it onto `Vertices` and bump `vertCount`. -/
def addVertex (g : Grph) (v : Int) : Bool × Grph :=
  if (lookupA g.edgeMap v).isSome then (false, g)
  else
    (true,
      { vertCount := g.vertCount + 1
        edgeCount := g.edgeCount
        Vertices := g.Vertices ++ [v]
        edgeMap := g.edgeMap ++ [(v, [])] })

/-- The scan of `addEdge` (graph.h lines 86-92): overwrite the weight of the
first entry whose `toVert` matches, else append a new `EdgeData` (lines
94-98).  The returned flag records whether an existing edge was overwritten
(in which case `edgeCount` is not incremented, line 100). -/
def owrite : List EdgeData → Int → ℚ → Bool × List EdgeData
  | [], to', w => (false, [EdgeData.mk to' w])
  | e :: t, to', w =>
    if e.toVert = to' then (true, EdgeData.mk to' w :: t)
    else
      let r := owrite t to' w
      (r.1, e :: r.2)

/-- `addEdge` (graph.h lines 80-103): fail without mutation when either
endpoint key is absent, otherwise overwrite-or-append in the `from` vertex's
edge vector. -/
def addEdge (g : Grph) (fr to' : Int) (w : ℚ) : Bool × Grph :=
  if !((lookupA g.edgeMap fr).isSome && (lookupA g.edgeMap to').isSome) then (false, g)
  else
    match lookupA g.edgeMap fr with
    | none => (false, g)
    | some es =>
      let r := owrite es to' w
      (true,
        { vertCount := g.vertCount
          edgeCount := if r.1 then g.edgeCount else g.edgeCount + 1
          Vertices := g.Vertices
          edgeMap := setA g.edgeMap fr r.2 })

/-- The scan of `getWeight` (graph.h lines 118-124): weight of the first
entry whose `toVert` matches. -/
def findW : List EdgeData → Int → Option ℚ
  | [], _ => none
  | e :: t, to' => if e.toVert = to' then some e.toWeight else findW t to'

/-- `getWeight` (graph.h lines 112-127): `none` models returning `false`
(weight parameter untouched), `some w` models returning `true` with `w`. -/
def getWeight (g : Grph) (fr to' : Int) : Option ℚ :=
  if !((lookupA g.edgeMap fr).isSome && (lookupA g.edgeMap to').isSome) then none
  else
    match lookupA g.edgeMap fr with
    | none => none
    | some es => findW es to'

/-- Insertion into a sorted duplicate-free list: models `std::set::insert`
(the iteration order of `std::set<long long>` is ascending). -/
def sortedInsert : List Int → Int → List Int
  | [], x => [x]
  | a :: t, x =>
    if x < a then x :: a :: t
    else if x = a then a :: t
    else a :: sortedInsert t x

/-- `neighbors` (graph.h lines 135-148): the `toVert`s of the vertex's edge
vector collected into a sorted set (empty when the vertex is absent). -/
def neighbors (g : Grph) (v : Int) : List Int :=
  match lookupA g.edgeMap v with
  | none => []
  | some es => (es.map EdgeData.toVert).foldl sortedInsert []

/-- `getVertices` (graph.h lines 154-156). -/
def getVertices (g : Grph) : List Int := g.Vertices

end Grph

/-- A graph-building operation: the two mutating calls the program uses. -/
inductive Op where
  | addV (v : Int)
  | addE (fr to' : Int) (w : ℚ)
deriving DecidableEq

/-- Apply one operation, discarding the success flag (as the map-loading code
of application.cpp lines 424-456 does). -/
def stepOp (g : Grph) : Op → Grph
  | Op.addV v => (g.addVertex v).2
  | Op.addE a b w => (g.addEdge a b w).2

/-- The graph reached from the empty graph by a sequence of operations. -/
def applyOps (ops : List Op) : Grph := ops.foldl stepOp Grph.empty

/-- The vertices passed to `addVertex` by a sequence of operations. -/
def vertArgs : List Op → List Int
  | [] => []
  | Op.addV v :: t => v :: vertArgs t
  | Op.addE _ _ _ :: t => vertArgs t

/-- All directed `(from, to)` pairs present in the adjacency structure. -/
def edgePairs (g : Grph) : List (Int × Int) :=
  g.edgeMap.flatMap (fun p => p.2.map (fun e => (p.1, e.toVert)))

/-- Well-formedness of a graph value: the invariants the data structure
maintains (spec section 3, "Graph" bullet), used by the Dijkstra proofs. -/
def WfG (g : Grph) : Prop :=
  g.Vertices.Nodup ∧
  (g.edgeMap.map Prod.fst).Nodup ∧
  (∀ v ∈ g.Vertices, (lookupA g.edgeMap v).isSome = true) ∧
  (∀ p ∈ g.edgeMap, p.1 ∈ g.Vertices) ∧
  (∀ p ∈ g.edgeMap, (p.2.map EdgeData.toVert).Nodup) ∧
  (∀ p ∈ g.edgeMap, ∀ e ∈ p.2, e.toVert ∈ g.Vertices) ∧
  g.vertCount = (g.Vertices.length : Int) ∧
  g.edgeCount = ((edgePairs g).length : Int)

instance (g : Grph) : Decidable (WfG g) := by
  unfold WfG; infer_instance

/-- The running state of `Dijkstra` (application.cpp lines 119-137): the
`distances` and `predecessors` maps, the `visitedVertices` set, the lazy
priority queue, the `edgeWeight` reference variable and the `currentV`
variable. -/
structure DState where
  dists : List (Int × Dbl)
  preds : List (Int × Int)
  visited : List Int
  q : List (Int × Dbl)
  ew : ℚ
  cur : Int
deriving DecidableEq

/-- Pop a minimal-priority entry from the queue (the `prioritize` comparator,
application.cpp lines 37-44, makes `std::priority_queue` a min-heap on the
`double` component).  Ties between equal priorities are popped in push (FIFO)
order; the C++ standard leaves that order unspecified. -/
def popMin : (Int × Dbl) → List (Int × Dbl) → ((Int × Dbl) × List (Int × Dbl))
  | a, [] => (a, [])
  | a, b :: t =>
    if (popMin b t).1.2.ltb a.2 then ((popMin b t).1, a :: (popMin b t).2)
    else (a, b :: t)

/-- The `edgeWeight` reference variable after the `getWeight` call of
application.cpp line 155: `getWeight`'s boolean result is ignored by the
code, so on a missing edge the variable keeps its stale previous value. -/
def refWeight (g : Grph) (cur adjV : Int) (old : ℚ) : ℚ :=
  match g.getWeight cur adjV with
  | some w => w
  | none => old

/-- The relaxation loop over `adjacentVertices` (application.cpp lines
153-167); a `.at` on a key missing from `distances` throws (`none`). -/
def relaxAll (g : Grph) : List Int → DState → Option DState
  | [], st => some st
  | adjV :: rest, st =>
    match lookupA st.dists st.cur, lookupA st.dists adjV with
    | some dc, some da =>
      if (dc.add (Dbl.fin (refWeight g st.cur adjV st.ew))).ltb da then
        relaxAll g rest
          { st with
            dists := emplaceA (eraseA st.dists adjV) adjV
              (dc.add (Dbl.fin (refWeight g st.cur adjV st.ew)))
            preds := emplaceA (eraseA st.preds adjV) adjV st.cur
            q := st.q ++ [(adjV, dc.add (Dbl.fin (refWeight g st.cur adjV st.ew)))]
            ew := refWeight g st.cur adjV st.ew }
      else relaxAll g rest { st with ew := refWeight g st.cur adjV st.ew }
    | _, _ => none

/-- The main scan of `Dijkstra` (application.cpp lines 139-172).  Each
iteration pops the minimal entry, breaks if its recorded distance is `INF`
(line 143), skips already-visited vertices (line 146), otherwise finalizes
the vertex, relaxes its neighbors and breaks once `endV` is finalized (line
169).  The `while` loop is given as fuel an upper bound on the total number
of queue insertions, which bounds the number of pops; running out of fuel
returns the current state, exactly as reaching an empty queue does. -/
def dLoop (g : Grph) (endV : Int) : ℕ → DState → Option DState
  | 0, st => some st
  | fuel + 1, st =>
    match st.q with
    | [] => some st
    | e :: t =>
      match lookupA st.dists (popMin e t).1.1 with
      | none => none
      | some dcur =>
        if dcur = Dbl.inf then
          some { st with q := (popMin e t).2, cur := (popMin e t).1.1 }
        else if (popMin e t).1.1 ∈ st.visited then
          dLoop g endV fuel { st with q := (popMin e t).2, cur := (popMin e t).1.1 }
        else
          match relaxAll g (g.neighbors (popMin e t).1.1)
              { st with
                q := (popMin e t).2
                cur := (popMin e t).1.1
                visited := st.visited ++ [(popMin e t).1.1] } with
          | none => none
          | some st2 =>
            if (popMin e t).1.1 = endV then some st2
            else dLoop g endV fuel st2

/-- The set-up loop of `Dijkstra` (application.cpp lines 125-129): for every
graph vertex, emplace distance `INF` and predecessor `-1` and push the vertex
with its (infinite) recorded distance. -/
def initAll : List Int → DState → DState
  | [], st => st
  | v :: t, st =>
    initAll t
      { st with
        dists := emplaceA st.dists v Dbl.inf
        preds := emplaceA st.preds v (-1)
        q := st.q ++
          [(v, (lookupA (emplaceA st.dists v Dbl.inf) v).getD Dbl.inf)] }

/-- Fuel bound for the scan: every pop consumes one queue entry, and the
total number of entries ever pushed is at most `|Vertices| + 1` initial
pushes plus one relaxation push per adjacency-list entry. -/
def dFuel (g : Grph) : ℕ :=
  g.Vertices.length + (g.edgeMap.map (fun p => p.2.length)).sum + 2

/-- The predecessor walk of `Dijkstra` (application.cpp lines 178-183),
starting from `predecessors.at(endV)` with `path = [endV]` already pushed.
Fuel is an artifact covering the (acyclic, hence short) predecessor chains
that arise in executions. -/
def backtrace (preds : List (Int × Int)) : ℕ → Int → List Int → Option (List Int)
  | 0, _, _ => none
  | f + 1, bt, acc =>
    if bt = -1 then some acc
    else
      match lookupA preds bt with
      | none => none
      | some nxt => backtrace preds f nxt (acc ++ [bt])

/-- The state after the set-up loop of `Dijkstra` (lines 119-129): all maps
filled from the empty containers, `currentV` modelling the not-yet-assigned
loop variable as the start vertex (the loop assigns it before any use
whenever the graph is non-empty). -/
def dInitState (g : Grph) (startV : Int) : DState :=
  initAll g.getVertices
    { dists := [], preds := [], visited := [], q := [], ew := 0, cur := startV }

/-- The state after lines 132-133 of application.cpp: the start vertex's
distance is overwritten to 0 and it is pushed with that distance. -/
def dStartState (g : Grph) (startV : Int) : DState :=
  { dInitState g startV with
    dists := setA (dInitState g startV).dists startV (Dbl.fin 0)
    q := (dInitState g startV).q ++ [(startV, Dbl.fin 0)] }

/-- `Dijkstra` (application.cpp lines 118-186).  The result models the pair
(returned `double`, contents of the `path` out-parameter); `none` models a
thrown `std::out_of_range` from a `.at` on a missing key.  `Dbl.fin (-1)`
is the "found nothing" return of line 175; note line 174 only guards on
`currentV != endV`. -/
def Dijkstra (g : Grph) (startV endV : Int) : Option (Dbl × List Int) :=
  if (lookupA (dInitState g startV).dists startV).isSome then
    match dLoop g endV (dFuel g) (dStartState g startV) with
    | none => none
    | some stF =>
      if stF.cur = endV then
        match lookupA stF.preds endV with
        | none => none
        | some p0 =>
          match backtrace stF.preds (stF.preds.length + 1) p0 [endV] with
          | none => none
          | some path =>
            match lookupA stF.dists endV with
            | none => none
            | some d => some (d, path)
      else some (Dbl.fin (-1), [])
  else none

/-- Sum of the graph's edge weights along consecutive vertices of a path
(spec section 8: "d equals the exact sum of edge weights along consecutive
path vertices"). -/
def pathSum (g : Grph) : List Int → Option Dbl
  | [] => some (Dbl.fin 0)
  | [_] => some (Dbl.fin 0)
  | a :: b :: t =>
    match g.getWeight a b, pathSum g (b :: t) with
    | some w, some s => some ((Dbl.fin w).add s)
    | _, _ => none

/- Association-list and edge-vector lemmas used by the graph theorems. -/

theorem lookupA_isSome_exists {α : Type} {l : List (Int × α)} {k : Int}
    (h : (lookupA l k).isSome = true) : ∃ v, lookupA l k = some v := by
  cases hv : lookupA l k with
  | none => rw [hv] at h; simp at h
  | some v => exact ⟨v, rfl⟩

theorem setA_lookup_self {α : Type} {l : List (Int × α)} {k : Int} {v : α}
    (h : (lookupA l k).isSome = true) : lookupA (setA l k v) k = some v := by
  induction l with
  | nil => simp [lookupA] at h
  | cons p t ih =>
    by_cases hk : p.1 = k
    · simp [lookupA, setA, hk]
    · simp [lookupA, setA, hk] at h ⊢
      exact ih h

theorem setA_lookup_isSome {α : Type} (l : List (Int × α)) (k : Int) (v : α) (x : Int) :
    (lookupA (setA l k v) x).isSome = (lookupA l x).isSome := by
  induction l with
  | nil => simp [setA]
  | cons p t ih =>
    obtain ⟨pk, pv⟩ := p
    by_cases hk : pk = k
    · subst hk
      by_cases hx : pk = x
      · subst hx; simp [lookupA, setA]
      · simp [lookupA, setA, hx]
    · by_cases hx : pk = x
      · subst hx; simp [lookupA, setA, hk]
      · simp [lookupA, setA, hk, hx, ih]

theorem owrite_findW_self (es : List EdgeData) (to' : Int) (w : ℚ) :
    Grph.findW (Grph.owrite es to' w).2 to' = some w := by
  induction es with
  | nil => simp [Grph.owrite, Grph.findW]
  | cons e t ih =>
    by_cases he : e.toVert = to'
    · simp [Grph.owrite, Grph.findW, he]
    · simp [Grph.owrite, Grph.findW, he, ih]

theorem owrite_fst (es : List EdgeData) (to' : Int) (w : ℚ) :
    (Grph.owrite es to' w).1 = (Grph.findW es to').isSome := by
  induction es with
  | nil => simp [Grph.owrite, Grph.findW]
  | cons e t ih =>
    by_cases he : e.toVert = to'
    · simp [Grph.owrite, Grph.findW, he]
    · simp [Grph.owrite, Grph.findW, he, ih]

theorem addEdge_of_present {g : Grph} {a b : Int} (w : ℚ)
    (ha : (lookupA g.edgeMap a).isSome = true) (hb : (lookupA g.edgeMap b).isSome = true) :
    ∀ es, lookupA g.edgeMap a = some es →
    Grph.addEdge g a b w =
      (true,
        { vertCount := g.vertCount
          edgeCount := if (Grph.owrite es b w).1 then g.edgeCount else g.edgeCount + 1
          Vertices := g.Vertices
          edgeMap := setA g.edgeMap a (Grph.owrite es b w).2 }) := by
  intro es hes
  simp [Grph.addEdge, ha, hb, hes]

theorem getWeight_of_present {g : Grph} {a b : Int}
    (ha : (lookupA g.edgeMap a).isSome = true) (hb : (lookupA g.edgeMap b).isSome = true)
    {es : List EdgeData} (hes : lookupA g.edgeMap a = some es) :
    Grph.getWeight g a b = Grph.findW es b := by
  simp [Grph.getWeight, ha, hb, hes]

/-- C6: adding an edge between present vertices succeeds and is read back by
`getWeight`; re-adding overwrites the weight without changing the edge
count. -/
theorem addEdge_overwrite_spec (g : Grph) (a b : Int) (w w2 : ℚ)
    (ha : (lookupA g.edgeMap a).isSome = true)
    (hb : (lookupA g.edgeMap b).isSome = true) :
    (Grph.addEdge g a b w).1 = true ∧
    Grph.getWeight (Grph.addEdge g a b w).2 a b = some w ∧
    (Grph.addEdge (Grph.addEdge g a b w).2 a b w2).1 = true ∧
    Grph.getWeight (Grph.addEdge (Grph.addEdge g a b w).2 a b w2).2 a b = some w2 ∧
    Grph.NumEdges (Grph.addEdge (Grph.addEdge g a b w).2 a b w2).2 =
      Grph.NumEdges (Grph.addEdge g a b w).2 := by
  obtain ⟨es, hes⟩ := lookupA_isSome_exists ha
  have h1 := addEdge_of_present w ha hb es hes
  set g1 := (Grph.addEdge g a b w).2 with hg1
  have hg1eq : g1.edgeMap = setA g.edgeMap a (Grph.owrite es b w).2 := by
    rw [hg1, h1]
  have ha1 : (lookupA g1.edgeMap a).isSome = true := by
    rw [hg1eq, setA_lookup_isSome]; exact ha
  have hb1 : (lookupA g1.edgeMap b).isSome = true := by
    rw [hg1eq, setA_lookup_isSome]; exact hb
  have hes1 : lookupA g1.edgeMap a = some (Grph.owrite es b w).2 := by
    rw [hg1eq]; exact setA_lookup_self ha
  have hfind1 : Grph.findW (Grph.owrite es b w).2 b = some w := owrite_findW_self es b w
  have h2 := addEdge_of_present w2 ha1 hb1 _ hes1
  have hflag : (Grph.owrite (Grph.owrite es b w).2 b w2).1 = true := by
    rw [owrite_fst, hfind1]; rfl
  refine ⟨by rw [h1], ?_, by rw [h2], ?_, ?_⟩
  · rw [getWeight_of_present ha1 hb1 hes1]; exact hfind1
  · set g2 := (Grph.addEdge g1 a b w2).2 with hg2
    have hg2eq : g2.edgeMap = setA g1.edgeMap a (Grph.owrite (Grph.owrite es b w).2 b w2).2 := by
      rw [hg2, h2]
    have ha2 : (lookupA g2.edgeMap a).isSome = true := by
      rw [hg2eq, setA_lookup_isSome]; exact ha1
    have hb2 : (lookupA g2.edgeMap b).isSome = true := by
      rw [hg2eq, setA_lookup_isSome]; exact hb1
    have hes2 : lookupA g2.edgeMap a = some (Grph.owrite (Grph.owrite es b w).2 b w2).2 := by
      rw [hg2eq]; exact setA_lookup_self ha1
    rw [getWeight_of_present ha2 hb2 hes2]
    exact owrite_findW_self _ b w2
  · rw [h2]
    simp [Grph.NumEdges, hflag]

/-- C6 witness: a concrete two-vertex graph where both addEdge calls succeed,
the weight reads back, the overwrite updates it and the edge count is
unchanged. -/
theorem addEdge_overwrite_spec_witness :
    (lookupA (applyOps [Op.addV 1, Op.addV 2]).edgeMap 1).isSome = true ∧
    (lookupA (applyOps [Op.addV 1, Op.addV 2]).edgeMap 2).isSome = true ∧
    (Grph.addEdge (applyOps [Op.addV 1, Op.addV 2]) 1 2 5).1 = true ∧
    Grph.getWeight (Grph.addEdge (applyOps [Op.addV 1, Op.addV 2]) 1 2 5).2 1 2 = some 5 ∧
    (Grph.addEdge (Grph.addEdge (applyOps [Op.addV 1, Op.addV 2]) 1 2 5).2 1 2 7).1 = true ∧
    Grph.getWeight (Grph.addEdge (Grph.addEdge (applyOps [Op.addV 1, Op.addV 2]) 1 2 5).2 1 2 7).2 1 2
      = some 7 ∧
    Grph.NumEdges (Grph.addEdge (Grph.addEdge (applyOps [Op.addV 1, Op.addV 2]) 1 2 5).2 1 2 7).2 =
      Grph.NumEdges (Grph.addEdge (applyOps [Op.addV 1, Op.addV 2]) 1 2 5).2 := by
  have h := addEdge_overwrite_spec (applyOps [Op.addV 1, Op.addV 2]) 1 2 5 7
    (by decide) (by decide)
  exact ⟨by decide, by decide, h.1, h.2.1, h.2.2.1, h.2.2.2.1, h.2.2.2.2⟩

/-- C7: `addEdge` with a missing endpoint returns `false` and leaves the
graph, hence its vertex count, edge count and every weight, unchanged. -/
theorem addEdge_missing_vertex_spec (g : Grph) (a b : Int) (w : ℚ)
    (h : (lookupA g.edgeMap a).isSome = false ∨ (lookupA g.edgeMap b).isSome = false) :
    Grph.addEdge g a b w = (false, g) ∧
    Grph.NumVertices (Grph.addEdge g a b w).2 = Grph.NumVertices g ∧
    Grph.NumEdges (Grph.addEdge g a b w).2 = Grph.NumEdges g ∧
    ∀ x y, Grph.getWeight (Grph.addEdge g a b w).2 x y = Grph.getWeight g x y := by
  have hcond : ((lookupA g.edgeMap a).isSome && (lookupA g.edgeMap b).isSome) = false := by
    rcases h with h | h <;> simp [h]
  have hmain : Grph.addEdge g a b w = (false, g) := by
    simp [Grph.addEdge, hcond]
  exact ⟨hmain, by rw [hmain], by rw [hmain], fun x y => by rw [hmain]⟩

/-- C7 witness: adding an edge touching the absent vertex 3 in a concrete
one-vertex graph fails and changes nothing. -/
theorem addEdge_missing_vertex_spec_witness :
    ((lookupA (applyOps [Op.addV 1]).edgeMap 3).isSome = false ∨
      (lookupA (applyOps [Op.addV 1]).edgeMap 1).isSome = false) ∧
    Grph.addEdge (applyOps [Op.addV 1]) 3 1 5 = (false, applyOps [Op.addV 1]) := by
  exact ⟨Or.inl (by decide),
    (addEdge_missing_vertex_spec (applyOps [Op.addV 1]) 3 1 5 (Or.inl (by decide))).1⟩


/- Lemmas about keys, membership and sizes, feeding the graph invariants. -/

theorem lookupA_isSome_iff_mem {α : Type} (l : List (Int × α)) (k : Int) :
    (lookupA l k).isSome = true ↔ k ∈ l.map Prod.fst := by
  induction l with
  | nil => simp [lookupA]
  | cons p t ih =>
    obtain ⟨pk, pv⟩ := p
    by_cases hk : pk = k
    · simp [lookupA, hk]
    · simp [lookupA, hk, ih, Ne.symm hk]

theorem lookupA_eq_some_mem {α : Type} {l : List (Int × α)} {k : Int} {v : α}
    (h : lookupA l k = some v) : (k, v) ∈ l := by
  induction l with
  | nil => simp [lookupA] at h
  | cons p t ih =>
    obtain ⟨pk, pv⟩ := p
    by_cases hk : pk = k
    · simp [lookupA, hk] at h
      simp [← hk, ← h]
    · simp [lookupA, hk] at h
      simp [ih h]

theorem lookupA_append_some {α : Type} {l : List (Int × α)} {k : Int} {v : α}
    (m : List (Int × α)) (h : lookupA l k = some v) : lookupA (l ++ m) k = some v := by
  induction l with
  | nil => simp [lookupA] at h
  | cons p t ih =>
    obtain ⟨pk, pv⟩ := p
    by_cases hk : pk = k
    · simp [lookupA, hk] at h ⊢; exact h
    · simp [lookupA, hk] at h ⊢; exact ih h

theorem lookupA_append_none {α : Type} {l : List (Int × α)} {k : Int}
    (m : List (Int × α)) (h : lookupA l k = none) : lookupA (l ++ m) k = lookupA m k := by
  induction l with
  | nil => simp [lookupA]
  | cons p t ih =>
    obtain ⟨pk, pv⟩ := p
    by_cases hk : pk = k
    · simp [lookupA, hk] at h
    · simp [lookupA, hk] at h ⊢; exact ih h

theorem setA_map_fst {α : Type} (l : List (Int × α)) (k : Int) (nv : α) :
    (setA l k nv).map Prod.fst = l.map Prod.fst := by
  induction l with
  | nil => simp [setA]
  | cons p t ih =>
    obtain ⟨pk, pv⟩ := p
    by_cases hk : pk = k
    · subst hk; simp [setA]
    · simp [setA, hk, ih]

theorem setA_mem {α : Type} {l : List (Int × α)} {k : Int} {nv : α} {p : Int × α}
    (h : p ∈ setA l k nv) : p ∈ l ∨ p = (k, nv) := by
  induction l with
  | nil => simp [setA] at h
  | cons q t ih =>
    obtain ⟨qk, qv⟩ := q
    by_cases hk : qk = k
    · subst hk
      simp [setA] at h
      rcases h with h | h
      · right; simp [h]
      · left; simp [h]
    · simp [setA, hk] at h
      rcases h with h | h
      · left; simp [h]
      · rcases ih h with h2 | h2
        · left; simp [h2]
        · right; exact h2

/-- Total length of all adjacency vectors of an edge map. -/
def sumLens (l : List (Int × List EdgeData)) : ℕ :=
  (l.map (fun p => p.2.length)).sum

theorem edgePairs_length (g : Grph) : (edgePairs g).length = sumLens g.edgeMap := by
  unfold edgePairs sumLens
  induction g.edgeMap with
  | nil => simp
  | cons p t ih => simp [List.flatMap_cons, ih]

theorem sumLens_setA {l : List (Int × List EdgeData)} {a : Int} {es : List EdgeData}
    (h : lookupA l a = some es) (es2 : List EdgeData) :
    sumLens (setA l a es2) + es.length = sumLens l + es2.length := by
  induction l with
  | nil => simp [lookupA] at h
  | cons p t ih =>
    obtain ⟨pk, pv⟩ := p
    by_cases hk : pk = a
    · subst hk
      simp [lookupA] at h
      subst h
      simp [setA, sumLens]
      omega
    · simp [lookupA, hk] at h
      have := ih h
      simp [setA, hk, sumLens] at this ⊢
      omega

theorem owrite_toVert (es : List EdgeData) (b : Int) (w : ℚ) :
    (Grph.owrite es b w).2.map EdgeData.toVert =
      if (Grph.findW es b).isSome then es.map EdgeData.toVert
      else es.map EdgeData.toVert ++ [b] := by
  induction es with
  | nil => simp [Grph.owrite, Grph.findW]
  | cons e t ih =>
    by_cases he : e.toVert = b
    · simp [Grph.owrite, Grph.findW, he]
    · simp only [Grph.owrite, Grph.findW, he, if_neg, ite_false, List.map_cons]
      rw [ih]
      by_cases hf : (Grph.findW t b).isSome
      · simp [hf]
      · simp [hf]

theorem findW_isSome_iff (es : List EdgeData) (b : Int) :
    (Grph.findW es b).isSome = true ↔ b ∈ es.map EdgeData.toVert := by
  induction es with
  | nil => simp [Grph.findW]
  | cons e t ih =>
    by_cases he : e.toVert = b
    · simp [Grph.findW, he]
    · simp [Grph.findW, he, ih, Ne.symm he]

theorem owrite_length (es : List EdgeData) (b : Int) (w : ℚ) :
    (Grph.owrite es b w).2.length =
      if (Grph.findW es b).isSome then es.length else es.length + 1 := by
  have h := congrArg List.length (owrite_toVert es b w)
  simp only [List.length_map] at h
  rw [h]
  by_cases hf : (Grph.findW es b).isSome
  · simp [hf]
  · simp [hf]

theorem pairsOf_mem_fst {l : List (Int × List EdgeData)} {p : Int × Int}
    (h : p ∈ l.flatMap (fun q => q.2.map (fun e => (q.1, e.toVert)))) :
    p.1 ∈ l.map Prod.fst := by
  simp only [List.mem_flatMap, List.mem_map] at h
  obtain ⟨q, hq, e, he, hpe⟩ := h
  simp only [List.mem_map]
  exact ⟨q, hq, by rw [← hpe]⟩

theorem pairsOf_nodup {l : List (Int × List EdgeData)}
    (hk : (l.map Prod.fst).Nodup)
    (he : ∀ p ∈ l, (p.2.map EdgeData.toVert).Nodup) :
    (l.flatMap (fun q => q.2.map (fun e => (q.1, e.toVert)))).Nodup := by
  induction l with
  | nil => simp
  | cons q t ih =>
    simp only [List.flatMap_cons]
    simp only [List.map_cons, List.nodup_cons] at hk
    rw [List.nodup_append]
    refine ⟨?_, ih hk.2 (fun p hp => he p (List.mem_cons_of_mem q hp)), ?_⟩
    · have hq := he q (List.mem_cons_self q t)
      have hinj : Function.Injective (fun v : Int => (q.1, v)) :=
        fun x y hxy => congrArg Prod.snd hxy
      have hmapped := hq.map hinj
      simpa [List.map_map, Function.comp] using hmapped
    · intro x hx hx2
      have h1 : x.1 = q.1 := by
        simp only [List.mem_map] at hx
        obtain ⟨e, _, hpe⟩ := hx
        rw [← hpe]
      have h2 := pairsOf_mem_fst hx2
      rw [h1] at h2
      exact hk.1 h2

theorem addEdge_vertices (g : Grph) (a b : Int) (w : ℚ) :
    (Grph.addEdge g a b w).2.Vertices = g.Vertices := by
  unfold Grph.addEdge
  split
  · rfl
  · split <;> rfl

theorem keys_mem_vertices {g : Grph} (hw : WfG g) {k : Int}
    (h : k ∈ g.edgeMap.map Prod.fst) : k ∈ g.Vertices := by
  simp only [List.mem_map] at h
  obtain ⟨p, hp, hk⟩ := h
  exact hk ▸ hw.2.2.2.1 p hp


theorem addVertex_of_present {g : Grph} {v : Int}
    (h : (lookupA g.edgeMap v).isSome = true) : Grph.addVertex g v = (false, g) := by
  unfold Grph.addVertex
  rw [h]
  rfl

theorem addVertex_of_absent {g : Grph} {v : Int}
    (h : (lookupA g.edgeMap v).isSome = false) :
    Grph.addVertex g v =
      (true,
        { vertCount := g.vertCount + 1
          edgeCount := g.edgeCount
          Vertices := g.Vertices ++ [v]
          edgeMap := g.edgeMap ++ [(v, [])] }) := by
  unfold Grph.addVertex
  rw [h]
  rfl

theorem wf_addVertex {g : Grph} (hw : WfG g) (v : Int) : WfG (Grph.addVertex g v).2 := by
  by_cases hp : (lookupA g.edgeMap v).isSome = true
  · rw [addVertex_of_present hp]
    exact hw
  · have hp2 : (lookupA g.edgeMap v).isSome = false := by
      cases hq : (lookupA g.edgeMap v).isSome
      · rfl
      · exact absurd hq hp
    have hvk : v ∉ g.edgeMap.map Prod.fst :=
      fun hm => hp ((lookupA_isSome_iff_mem _ _).mpr hm)
    have hvv : v ∉ g.Vertices := fun hm => hp (hw.2.2.1 v hm)
    have hnone : lookupA g.edgeMap v = none := by
      cases hl : lookupA g.edgeMap v with
      | none => rfl
      | some val => rw [hl] at hp2; simp at hp2
    obtain ⟨h1, h2, h3, h4, h5, h6, h7, h8⟩ := hw
    rw [addVertex_of_absent hp2]
    unfold WfG
    dsimp only
    refine ⟨?_, ?_, ?_, ?_, ?_, ?_, ?_, ?_⟩
    · simp [List.nodup_append, h1, hvv]
    · simp [List.nodup_append, h2, hvk]
    · intro u hu
      rcases List.mem_append.mp hu with hu | hu
      · obtain ⟨val, hval⟩ := lookupA_isSome_exists (h3 u hu)
        rw [lookupA_append_some _ hval]
        rfl
      · have hu2 : u = v := by simpa using hu
        subst hu2
        rw [lookupA_append_none _ hnone]
        simp [lookupA]
    · intro p hpm
      rcases List.mem_append.mp hpm with hpm | hpm
      · exact List.mem_append_left _ (h4 p hpm)
      · have hp3 : p = (v, []) := by simpa using hpm
        subst hp3
        simp
    · intro p hpm
      rcases List.mem_append.mp hpm with hpm | hpm
      · exact h5 p hpm
      · have hp3 : p = (v, []) := by simpa using hpm
        subst hp3
        simp
    · intro p hpm e hep
      rcases List.mem_append.mp hpm with hpm | hpm
      · exact List.mem_append_left _ (h6 p hpm e hep)
      · have hp3 : p = (v, []) := by simpa using hpm
        subst hp3
        simp at hep
    · simp only [List.length_append, List.length_singleton]
      omega
    · simp only [edgePairs, List.flatMap_append] at h8 ⊢
      simpa using h8

theorem wf_addEdge {g : Grph} (hw : WfG g) (a b : Int) (w : ℚ) :
    WfG (Grph.addEdge g a b w).2 := by
  by_cases hc : ((lookupA g.edgeMap a).isSome && (lookupA g.edgeMap b).isSome) = true
  · have ha : (lookupA g.edgeMap a).isSome = true := (Bool.and_eq_true_iff.mp hc).1
    have hb : (lookupA g.edgeMap b).isSome = true := (Bool.and_eq_true_iff.mp hc).2
    obtain ⟨es, hes⟩ := lookupA_isSome_exists ha
    obtain ⟨h1, h2, h3, h4, h5, h6, h7, h8⟩ := hw
    have hmema : (a, es) ∈ g.edgeMap := lookupA_eq_some_mem hes
    have hesnd : (es.map EdgeData.toVert).Nodup := h5 _ hmema
    have haV : a ∈ g.Vertices := h4 _ hmema
    have hbV : b ∈ g.Vertices :=
      keys_mem_vertices ⟨h1, h2, h3, h4, h5, h6, h7, h8⟩
        ((lookupA_isSome_iff_mem _ _).mp hb)
    rw [addEdge_of_present w ha hb es hes]
    unfold WfG
    dsimp only
    refine ⟨h1, ?_, ?_, ?_, ?_, ?_, h7, ?_⟩
    · simpa [setA_map_fst] using h2
    · intro u hu
      simpa [setA_lookup_isSome] using h3 u hu
    · intro p hpm
      rcases setA_mem hpm with hpm | hpm
      · exact h4 p hpm
      · subst hpm
        exact haV
    · intro p hpm
      rcases setA_mem hpm with hpm | hpm
      · exact h5 p hpm
      · subst hpm
        dsimp only
        rw [owrite_toVert]
        by_cases hf : (Grph.findW es b).isSome
        · simpa [hf] using hesnd
        · have hbm : b ∉ es.map EdgeData.toVert :=
            fun hm => by rw [(findW_isSome_iff es b).mpr hm] at hf; exact hf rfl
          simp [hf, List.nodup_append, hesnd, hbm]
    · intro p hpm e hep
      rcases setA_mem hpm with hpm | hpm
      · exact h6 p hpm e hep
      · subst hpm
        dsimp only at hep
        have hev : e.toVert ∈ (Grph.owrite es b w).2.map EdgeData.toVert :=
          List.mem_map_of_mem _ hep
        rw [owrite_toVert] at hev
        by_cases hf : (Grph.findW es b).isSome
        · rw [if_pos hf] at hev
          simp only [List.mem_map] at hev
          obtain ⟨e0, he0, hte⟩ := hev
          exact hte ▸ h6 _ hmema e0 he0
        · rw [if_neg hf] at hev
          rcases List.mem_append.mp hev with hev | hev
          · simp only [List.mem_map] at hev
            obtain ⟨e0, he0, hte⟩ := hev
            exact hte ▸ h6 _ hmema e0 he0
          · have hevb : e.toVert = b := by simpa using hev
            exact hevb ▸ hbV
    · have hsl := sumLens_setA hes (Grph.owrite es b w).2
      have hol := owrite_length es b w
      have hofst := owrite_fst es b w
      have hel2 := edgePairs_length
        { vertCount := g.vertCount
          edgeCount := if (Grph.owrite es b w).1 then g.edgeCount else g.edgeCount + 1
          Vertices := g.Vertices
          edgeMap := setA g.edgeMap a (Grph.owrite es b w).2 }
      dsimp only at hel2 ⊢
      rw [hel2, hofst]
      rw [edgePairs_length g] at h8
      by_cases hf : (Grph.findW es b).isSome
      · rw [hol, if_pos hf] at hsl
        rw [if_pos hf]
        omega
      · rw [hol, if_neg hf] at hsl
        rw [if_neg hf]
        omega
  · have hc2 : ((lookupA g.edgeMap a).isSome && (lookupA g.edgeMap b).isSome) = false := by
      cases hq : ((lookupA g.edgeMap a).isSome && (lookupA g.edgeMap b).isSome)
      · rfl
      · exact absurd hq hc
    have heq : Grph.addEdge g a b w = (false, g) := by
      unfold Grph.addEdge
      rw [hc2]
      rfl
    rw [heq]
    exact hw

theorem wfG_empty : WfG Grph.empty := by decide

theorem wf_foldl : ∀ (ops : List Op) (g : Grph), WfG g → WfG (ops.foldl stepOp g)
  | [], _, hw => hw
  | op :: t, g, hw => by
    have hstep : WfG (stepOp g op) := by
      cases op with
      | addV v => exact wf_addVertex hw v
      | addE a b w => exact wf_addEdge hw a b w
    exact wf_foldl t _ hstep

theorem addVertex_vertices_mem {g : Grph} (hw : WfG g) (u v : Int) :
    v ∈ (Grph.addVertex g u).2.Vertices ↔ v ∈ g.Vertices ∨ v = u := by
  by_cases hp : (lookupA g.edgeMap u).isSome = true
  · have huV : u ∈ g.Vertices :=
      keys_mem_vertices hw ((lookupA_isSome_iff_mem _ _).mp hp)
    rw [addVertex_of_present hp]
    constructor
    · exact Or.inl
    · rintro (h | h)
      · exact h
      · exact h ▸ huV
  · have hp2 : (lookupA g.edgeMap u).isSome = false := by
      cases hq : (lookupA g.edgeMap u).isSome
      · rfl
      · exact absurd hq hp
    rw [addVertex_of_absent hp2]
    simp

theorem foldl_vertices_mem : ∀ (ops : List Op) (g : Grph), WfG g →
    ∀ v, (v ∈ (ops.foldl stepOp g).Vertices ↔ v ∈ g.Vertices ∨ v ∈ vertArgs ops)
  | [], _, _, v => by simp [vertArgs]
  | Op.addV u :: t, g, hw, v => by
    have hstep : WfG (stepOp g (Op.addV u)) := wf_addVertex hw u
    have ih := foldl_vertices_mem t _ hstep v
    simp only [List.foldl_cons] at ih ⊢
    rw [ih]
    have hv := addVertex_vertices_mem hw u v
    simp only [stepOp] at hv ⊢
    rw [hv]
    simp only [vertArgs, List.mem_cons]
    tauto
  | Op.addE a b w :: t, g, hw, v => by
    have hstep : WfG (stepOp g (Op.addE a b w)) := wf_addEdge hw a b w
    have ih := foldl_vertices_mem t _ hstep v
    simp only [List.foldl_cons] at ih ⊢
    rw [ih]
    simp only [stepOp, addEdge_vertices, vertArgs]

/-- C8: after every sequence of addVertex/addEdge operations on an initially
empty graph, each vertex appears at most once in the vertex set, each
adjacency list has at most one edge per distinct neighbor, `NumVertices`
equals the number of distinct vertices added, and `NumEdges` equals the
number of distinct (from, to) pairs present (overwrites not counted). -/
theorem graph_invariants_spec (ops : List Op) :
    (applyOps ops).Vertices.Nodup ∧
    (∀ p ∈ (applyOps ops).edgeMap, (p.2.map EdgeData.toVert).Nodup) ∧
    (applyOps ops).NumVertices = ((vertArgs ops).dedup.length : Int) ∧
    (applyOps ops).NumEdges = ((edgePairs (applyOps ops)).length : Int) ∧
    (edgePairs (applyOps ops)).Nodup := by
  have hw : WfG (applyOps ops) := wf_foldl ops Grph.empty wfG_empty
  obtain ⟨h1, h2, h3, h4, h5, h6, h7, h8⟩ := hw
  have hmem := foldl_vertices_mem ops Grph.empty wfG_empty
  refine ⟨h1, h5, ?_, h8, pairsOf_nodup h2 h5⟩
  have hperm : (applyOps ops).Vertices.Perm (vertArgs ops).dedup := by
    rw [List.perm_ext_iff_of_nodup h1 (List.nodup_dedup _)]
    intro v
    rw [List.mem_dedup]
    have h := hmem v
    simpa [Grph.empty] using h
  have hlen := hperm.length_eq
  unfold Grph.NumVertices
  rw [h7, hlen]

/- Concrete graphs exercising the Dijkstra scan.  Each is built through the
same addVertex/addEdge calls the map-loading code would issue. -/

/-- Two vertices, no edges: vertex 2 is unreachable from vertex 1. -/
def gBug1 : Grph := applyOps [Op.addV 1, Op.addV 2]

/-- Two vertices 5 and 7, no edges: 7 is unreachable from 5. -/
def gBug2 : Grph := applyOps [Op.addV 5, Op.addV 7]

/-- Vertices 1,2,3 with the bidirectional edge 1-2 of weight 1: vertex 3 is
unreachable from vertex 1. -/
def gBug9 : Grph := applyOps [Op.addV 1, Op.addV 2, Op.addV 3, Op.addE 1 2 1, Op.addE 2 1 1]

/-- C1: refuted by the code.  On the two-vertex edge-free graph, `Dijkstra`
from 1 to 2 does not return the unreachable sentinel `-1`: the first popped
entry with infinite recorded distance is vertex 2 itself, so the scan breaks
with `currentV == endV` (application.cpp line 143 then 169-174 falls
through), and the function returns the numeric `INF` with path `[2]`, which
is neither a shortest-path length nor a vertex sequence connecting the
target back to the source. -/
theorem dijkstra_returns_inf_not_shortest :
    Dijkstra gBug1 1 2 = some (Dbl.inf, [2]) ∧ Dbl.inf ≠ Dbl.fin (-1) := by
  constructor
  · decide
  · intro h
    exact Dbl.noConfusion h

/-- C2: refuted by the code.  On the two-vertex edge-free graph with
vertices 5 and 7, no path from 5 to 7 exists, yet `Dijkstra` returns the
numeric value `INF = DBL_MAX` (a non-negative double, here `Dbl.inf`, which
compares above 0 like an ordinary distance) instead of the `-1` unreachable
sentinel, precisely because the scan ends by popping the infinite-distance
queue entry of the target itself. -/
theorem dijkstra_unreachable_returns_numeric :
    Dijkstra gBug2 5 7 = some (Dbl.inf, [7]) ∧ (Dbl.fin 0).ltb Dbl.inf = true := by
  exact ⟨by decide, by decide⟩

/-- C9: refuted by the code.  On `gBug9`, target 3 is unreachable from 1; the
engine returns claimed distance `INF` with path `[3]`, but the sum of edge
weights along the consecutive vertices of `[3]` is 0, so the claimed
distance does not equal the path's weight sum. -/
theorem dijkstra_distance_not_path_sum :
    Dijkstra gBug9 1 3 = some (Dbl.inf, [3]) ∧
    pathSum gBug9 [3] = some (Dbl.fin 0) ∧ Dbl.inf ≠ Dbl.fin 0 := by
  refine ⟨by decide, by decide, ?_⟩
  intro h
  exact Dbl.noConfusion h

/-- Modelled from the spec: the Coordinate record of spec section 3 (an
identifying node ID plus latitude/longitude).  The concrete struct lives in
osm.h, which is not among the analysed sources; its field shape is fixed by
the uses in application.cpp (`.ID`, `.Lat`, `.Lon`). -/
structure Coordinates where
  ID : Int
  Lat : ℚ
  Lon : ℚ
deriving DecidableEq

/-- Modelled from the spec: the Building record of spec section 3 (full
name, abbreviation, one representative coordinate); field shape fixed by the
uses in application.cpp (`.Fullname`, `.Abbrev`, `.Coords`). -/
structure BuildingInfo where
  Fullname : String
  Abbrev : String
  Coords : Coordinates
deriving DecidableEq

/-- Modelled from the spec: the Footway record of spec section 3 (an ordered
sequence of node IDs); field shape fixed by the uses in application.cpp
(`.Nodes`). -/
structure FootwayInfo where
  Nodes : List Int
deriving DecidableEq

/-- `std::vector::at` with an `int` index: `none` models the thrown
`std::out_of_range` (in particular at index `-1`). -/
def atIdx {α : Type} (l : List α) (i : Int) : Option α :=
  if i < 0 then none else l[i.toNat]?

/-- The scan loop of `getCenterBuildingIndex` (application.cpp lines 75-86):
walk the buildings with running index `i`, skipping buildings whose full
name is in `invalidCenters`, tracking the strictly smallest distance seen
and its index.  `mn` starts at `INF` and `minIdx` at `-1` (lines 71-72). -/
def gcbiAux (distFn : ℚ → ℚ → ℚ → ℚ → ℚ) (midLat midLon : ℚ) (invalid : List String) :
    List BuildingInfo → Int → Dbl → Int → Int
  | [], _, _, minIdx => minIdx
  | b :: rest, i, mn, minIdx =>
    if invalid.contains b.Fullname then
      gcbiAux distFn midLat midLon invalid rest (i + 1) mn minIdx
    else
      if (Dbl.fin (distFn midLat midLon b.Coords.Lat b.Coords.Lon)).ltb mn then
        gcbiAux distFn midLat midLon invalid rest (i + 1)
          (Dbl.fin (distFn midLat midLon b.Coords.Lat b.Coords.Lon)) i
      else gcbiAux distFn midLat midLon invalid rest (i + 1) mn minIdx

/-- `getCenterBuildingIndex` (application.cpp lines 66-89), parameterised by
the external geodesic distance primitive. -/
def getCenterBuildingIndex (distFn : ℚ → ℚ → ℚ → ℚ → ℚ) (Buildings : List BuildingInfo)
    (midLat midLon : ℚ) (invalid : List String) : Int :=
  gcbiAux distFn midLat midLon invalid Buildings 0 Dbl.inf (-1)

/-- The nested scan of `getClosestNode` (application.cpp lines 102-111) over
the footway node IDs in footway order; `Nodes.at(j)` on a missing ID throws
(`none`).  `minID` is uninitialized in the source (line 99); it is
overwritten by the first node scanned, and we give it the irrelevant initial
value 0. -/
def gcnScan (distFn : ℚ → ℚ → ℚ → ℚ → ℚ) (Nodes : List (Int × Coordinates))
    (bLat bLon : ℚ) : List Int → Dbl → Int → Option (Dbl × Int)
  | [], mn, mnID => some (mn, mnID)
  | j :: rest, mn, mnID =>
    match lookupA Nodes j with
    | none => none
    | some c =>
      if (Dbl.fin (distFn bLat bLon c.Lat c.Lon)).ltb mn then
        gcnScan distFn Nodes bLat bLon rest (Dbl.fin (distFn bLat bLon c.Lat c.Lon)) j
      else gcnScan distFn Nodes bLat bLon rest mn mnID

/-- `getClosestNode` (application.cpp lines 93-114): scan all footway nodes,
then return `Nodes.at(minID)`. -/
def getClosestNode (distFn : ℚ → ℚ → ℚ → ℚ → ℚ) (Nodes : List (Int × Coordinates))
    (Footways : List FootwayInfo) (b : BuildingInfo) : Option Coordinates :=
  match gcnScan distFn Nodes b.Coords.Lat b.Coords.Lon
      (Footways.flatMap FootwayInfo.Nodes) Dbl.inf 0 with
  | none => none
  | some r => lookupA Nodes r.2

/-- Observable engine-level events of one meeting-point query, in program
order: a center selection (`getCenterBuildingIndex` + `Buildings.at`) and a
`Dijkstra` invocation with its source and target node. -/
inductive Ev where
  | selectCenter (idx : Int)
  | dijk (s e : Int)
deriving DecidableEq

/-- Terminal outcome of one meeting-point query.  `indexError` models the
`std::out_of_range` thrown by `Buildings.at(-1)` when no candidate center
remains (acknowledged by the comment at application.cpp line 252);
`exception` models any other thrown `.at`; `outOfFuel` is the model's marker
for the retry cycle exceeding its iteration budget. -/
inductive QOutcome where
  | success (center : BuildingInfo) (d1 d2 : Dbl) (p1 p2 : List Int)
  | destinationUnreachable
  | indexError
  | exception
  | outOfFuel
deriving DecidableEq

/-- The retry loop of `application` (application.cpp lines 313-342): insert
the failed center's full name into the exclusion set, select the next center
(`Buildings.at(getCenterBuildingIndex(...))`, line 320 — an out-of-range
access when the index is `-1`), resolve its nearest node, run both
center-leg `Dijkstra` computations, and loop while either leg returns
`-1`. -/
def centerLoop (distFn : ℚ → ℚ → ℚ → ℚ → ℚ) (Nodes : List (Int × Coordinates))
    (Footways : List FootwayInfo) (Buildings : List BuildingInfo) (G : Grph)
    (midLat midLon : ℚ) (p1ID p2ID : Int) :
    ℕ → List String → BuildingInfo → List Ev → QOutcome × List Ev
  | 0, _, _, tr => (QOutcome.outOfFuel, tr)
  | fuel + 1, invalid, centerB, tr =>
    match atIdx Buildings
        (getCenterBuildingIndex distFn Buildings midLat midLon (centerB.Fullname :: invalid)) with
    | none =>
      (QOutcome.indexError,
        tr ++ [Ev.selectCenter
          (getCenterBuildingIndex distFn Buildings midLat midLon (centerB.Fullname :: invalid))])
    | some cB =>
      match getClosestNode distFn Nodes Footways cB with
      | none =>
        (QOutcome.exception,
          tr ++ [Ev.selectCenter
            (getCenterBuildingIndex distFn Buildings midLat midLon (centerB.Fullname :: invalid))])
      | some cCoords =>
        match Dijkstra G p1ID cCoords.ID, Dijkstra G p2ID cCoords.ID with
        | some r1, some r2 =>
          if r1.1 = Dbl.fin (-1) ∨ r2.1 = Dbl.fin (-1) then
            centerLoop distFn Nodes Footways Buildings G midLat midLon p1ID p2ID fuel
              (centerB.Fullname :: invalid) cB
              (tr ++ [Ev.selectCenter
                  (getCenterBuildingIndex distFn Buildings midLat midLon
                    (centerB.Fullname :: invalid)),
                Ev.dijk p1ID cCoords.ID, Ev.dijk p2ID cCoords.ID])
          else
            (QOutcome.success cB r1.1 r2.1 r1.2 r2.2,
              tr ++ [Ev.selectCenter
                  (getCenterBuildingIndex distFn Buildings midLat midLon
                    (centerB.Fullname :: invalid)),
                Ev.dijk p1ID cCoords.ID, Ev.dijk p2ID cCoords.ID])
        | _, _ =>
          (QOutcome.exception,
            tr ++ [Ev.selectCenter
              (getCenterBuildingIndex distFn Buildings midLat midLon
                (centerB.Fullname :: invalid))])

/-- One meeting-point query: the body of the `application` loop after the
two endpoint buildings have been found (application.cpp lines 242-345),
parameterised by the external geodesic distance and midpoint primitives.
`i1`, `i2` are the endpoint building indices produced by `searchBuilding`.
The second component is the trace of engine-level events in program order:
the initial center selection (line 251) happens before the three `Dijkstra`
runs (lines 304-306), whose order is endpoint-1 to center, endpoint-2 to
center, endpoint-1 to endpoint-2; the direct-reachability check (line 308)
is evaluated only after all three runs.  The retry loop receives fuel equal
to the number of buildings. -/
def runQuery (distFn : ℚ → ℚ → ℚ → ℚ → ℚ) (midFn : ℚ → ℚ → ℚ → ℚ → ℚ × ℚ)
    (Nodes : List (Int × Coordinates)) (Footways : List FootwayInfo)
    (Buildings : List BuildingInfo) (G : Grph) (i1 i2 : Int) : QOutcome × List Ev :=
  match atIdx Buildings i1, atIdx Buildings i2 with
  | some p1B, some p2B =>
    match atIdx Buildings
        (getCenterBuildingIndex distFn Buildings
          (midFn p1B.Coords.Lat p1B.Coords.Lon p2B.Coords.Lat p2B.Coords.Lon).1
          (midFn p1B.Coords.Lat p1B.Coords.Lon p2B.Coords.Lat p2B.Coords.Lon).2 []) with
    | none =>
      (QOutcome.indexError,
        [Ev.selectCenter
          (getCenterBuildingIndex distFn Buildings
            (midFn p1B.Coords.Lat p1B.Coords.Lon p2B.Coords.Lat p2B.Coords.Lon).1
            (midFn p1B.Coords.Lat p1B.Coords.Lon p2B.Coords.Lat p2B.Coords.Lon).2 [])])
    | some centerB =>
      match getClosestNode distFn Nodes Footways p1B,
            getClosestNode distFn Nodes Footways p2B,
            getClosestNode distFn Nodes Footways centerB with
      | some p1C, some p2C, some cC =>
        match Dijkstra G p1C.ID cC.ID, Dijkstra G p2C.ID cC.ID,
              Dijkstra G p1C.ID p2C.ID with
        | some r1, some r2, some rv =>
          if rv.1 = Dbl.fin (-1) then
            (QOutcome.destinationUnreachable,
              [Ev.selectCenter
                  (getCenterBuildingIndex distFn Buildings
                    (midFn p1B.Coords.Lat p1B.Coords.Lon p2B.Coords.Lat p2B.Coords.Lon).1
                    (midFn p1B.Coords.Lat p1B.Coords.Lon p2B.Coords.Lat p2B.Coords.Lon).2 []),
                Ev.dijk p1C.ID cC.ID, Ev.dijk p2C.ID cC.ID, Ev.dijk p1C.ID p2C.ID])
          else if r1.1 = Dbl.fin (-1) ∨ r2.1 = Dbl.fin (-1) then
            centerLoop distFn Nodes Footways Buildings G
              (midFn p1B.Coords.Lat p1B.Coords.Lon p2B.Coords.Lat p2B.Coords.Lon).1
              (midFn p1B.Coords.Lat p1B.Coords.Lon p2B.Coords.Lat p2B.Coords.Lon).2
              p1C.ID p2C.ID Buildings.length [] centerB
              [Ev.selectCenter
                  (getCenterBuildingIndex distFn Buildings
                    (midFn p1B.Coords.Lat p1B.Coords.Lon p2B.Coords.Lat p2B.Coords.Lon).1
                    (midFn p1B.Coords.Lat p1B.Coords.Lon p2B.Coords.Lat p2B.Coords.Lon).2 []),
                Ev.dijk p1C.ID cC.ID, Ev.dijk p2C.ID cC.ID, Ev.dijk p1C.ID p2C.ID]
          else
            (QOutcome.success centerB r1.1 r2.1 r1.2 r2.2,
              [Ev.selectCenter
                  (getCenterBuildingIndex distFn Buildings
                    (midFn p1B.Coords.Lat p1B.Coords.Lon p2B.Coords.Lat p2B.Coords.Lon).1
                    (midFn p1B.Coords.Lat p1B.Coords.Lon p2B.Coords.Lat p2B.Coords.Lon).2 []),
                Ev.dijk p1C.ID cC.ID, Ev.dijk p2C.ID cC.ID, Ev.dijk p1C.ID p2C.ID])
        | _, _, _ =>
          (QOutcome.exception,
            [Ev.selectCenter
                (getCenterBuildingIndex distFn Buildings
                  (midFn p1B.Coords.Lat p1B.Coords.Lon p2B.Coords.Lat p2B.Coords.Lon).1
                  (midFn p1B.Coords.Lat p1B.Coords.Lon p2B.Coords.Lat p2B.Coords.Lon).2 [])])
      | _, _, _ =>
        (QOutcome.exception,
          [Ev.selectCenter
              (getCenterBuildingIndex distFn Buildings
                (midFn p1B.Coords.Lat p1B.Coords.Lon p2B.Coords.Lat p2B.Coords.Lon).1
                (midFn p1B.Coords.Lat p1B.Coords.Lon p2B.Coords.Lat p2B.Coords.Lon).2 [])])
  | _, _ => (QOutcome.exception, [])


/- Properties of the center-selection scan. -/

theorem gcbiAux_cons (distFn : ℚ → ℚ → ℚ → ℚ → ℚ) (midLat midLon : ℚ)
    (invalid : List String) (b : BuildingInfo) (rest : List BuildingInfo)
    (i : Int) (mn : Dbl) (minIdx : Int) :
    gcbiAux distFn midLat midLon invalid (b :: rest) i mn minIdx =
      (if invalid.contains b.Fullname then
        gcbiAux distFn midLat midLon invalid rest (i + 1) mn minIdx
      else if (Dbl.fin (distFn midLat midLon b.Coords.Lat b.Coords.Lon)).ltb mn then
        gcbiAux distFn midLat midLon invalid rest (i + 1)
          (Dbl.fin (distFn midLat midLon b.Coords.Lat b.Coords.Lon)) i
      else gcbiAux distFn midLat midLon invalid rest (i + 1) mn minIdx) := rfl

theorem gcbiAux_spec (distFn : ℚ → ℚ → ℚ → ℚ → ℚ) (midLat midLon : ℚ)
    (invalid : List String) :
    ∀ (l : List BuildingInfo) (i : Int) (mn : Dbl) (minIdx : Int),
      gcbiAux distFn midLat midLon invalid l i mn minIdx = minIdx ∨
      ∃ (k : ℕ) (b : BuildingInfo), l[k]? = some b ∧
        invalid.contains b.Fullname = false ∧
        gcbiAux distFn midLat midLon invalid l i mn minIdx = i + (k : Int)
  | [], _, _, _ => Or.inl rfl
  | b :: rest, i, mn, minIdx => by
    by_cases hc : invalid.contains b.Fullname
    · have hstep : gcbiAux distFn midLat midLon invalid (b :: rest) i mn minIdx =
          gcbiAux distFn midLat midLon invalid rest (i + 1) mn minIdx := by
        rw [gcbiAux_cons, if_pos hc]
      rw [hstep]
      rcases gcbiAux_spec distFn midLat midLon invalid rest (i + 1) mn minIdx with
        h | ⟨k, b2, hk, hb2, hres⟩
      · exact Or.inl h
      · refine Or.inr ⟨k + 1, b2, by simpa using hk, hb2, ?_⟩
        rw [hres]
        push_cast
        ring
    · have hc2 : invalid.contains b.Fullname = false := by
        cases hq : invalid.contains b.Fullname
        · rfl
        · exact absurd hq hc
      by_cases hlt :
          (Dbl.fin (distFn midLat midLon b.Coords.Lat b.Coords.Lon)).ltb mn = true
      · have hstep : gcbiAux distFn midLat midLon invalid (b :: rest) i mn minIdx =
            gcbiAux distFn midLat midLon invalid rest (i + 1)
              (Dbl.fin (distFn midLat midLon b.Coords.Lat b.Coords.Lon)) i := by
          rw [gcbiAux_cons, if_neg hc, if_pos hlt]
        rw [hstep]
        rcases gcbiAux_spec distFn midLat midLon invalid rest (i + 1)
            (Dbl.fin (distFn midLat midLon b.Coords.Lat b.Coords.Lon)) i with
          h | ⟨k, b2, hk, hb2, hres⟩
        · refine Or.inr ⟨0, b, by simp, hc2, ?_⟩
          rw [h]
          simp
        · refine Or.inr ⟨k + 1, b2, by simpa using hk, hb2, ?_⟩
          rw [hres]
          push_cast
          ring
      · have hlt2 :
            (Dbl.fin (distFn midLat midLon b.Coords.Lat b.Coords.Lon)).ltb mn = false := by
          cases hq : (Dbl.fin (distFn midLat midLon b.Coords.Lat b.Coords.Lon)).ltb mn
          · rfl
          · exact absurd hq hlt
        have hstep : gcbiAux distFn midLat midLon invalid (b :: rest) i mn minIdx =
            gcbiAux distFn midLat midLon invalid rest (i + 1) mn minIdx := by
          rw [gcbiAux_cons, if_neg hc,
            if_neg (by rw [hlt2]; exact Bool.false_ne_true)]
        rw [hstep]
        rcases gcbiAux_spec distFn midLat midLon invalid rest (i + 1) mn minIdx with
          h | ⟨k, b2, hk, hb2, hres⟩
        · exact Or.inl h
        · refine Or.inr ⟨k + 1, b2, by simpa using hk, hb2, ?_⟩
          rw [hres]
          push_cast
          ring

theorem gcbi_center_valid {distFn : ℚ → ℚ → ℚ → ℚ → ℚ} {Buildings : List BuildingInfo}
    {midLat midLon : ℚ} {invalid : List String} {cB : BuildingInfo}
    (h : atIdx Buildings
        (getCenterBuildingIndex distFn Buildings midLat midLon invalid) = some cB) :
    cB ∈ Buildings ∧ invalid.contains cB.Fullname = false := by
  unfold getCenterBuildingIndex at h
  rcases gcbiAux_spec distFn midLat midLon invalid Buildings 0 Dbl.inf (-1) with
    hres | ⟨k, b, hk, hb, hres⟩
  · rw [hres] at h
    simp [atIdx] at h
  · rw [hres] at h
    have hidx : ((0 : Int) + (k : Int)) = (k : Int) := by ring
    rw [hidx] at h
    have hks : atIdx Buildings (k : Int) = Buildings[k]? := by
      simp [atIdx]
    rw [hks, hk] at h
    have hbc : b = cB := by injection h
    subst hbc
    exact ⟨List.getElem?_mem hk, hb⟩

theorem filter_length_lt {Buildings : List BuildingInfo} {invalid : List String}
    {cB : BuildingInfo} (hmem : cB ∈ Buildings)
    (hni : invalid.contains cB.Fullname = false) :
    (Buildings.filter
        (fun b => !((cB.Fullname :: invalid).contains b.Fullname))).length <
      (Buildings.filter (fun b => !(invalid.contains b.Fullname))).length := by
  have hsub : List.Sublist
      (Buildings.filter (fun b => !((cB.Fullname :: invalid).contains b.Fullname)))
      (Buildings.filter (fun b => !(invalid.contains b.Fullname))) := by
    apply List.monotone_filter_right
    intro b hb
    cases hq : invalid.contains b.Fullname
    · simp
    · exfalso
      have hcons : (cB.Fullname :: invalid).contains b.Fullname = true := by
        rw [List.contains_cons, hq]
        simp
      rw [hcons] at hb
      simp at hb
  have hle := hsub.length_le
  rcases lt_or_eq_of_le hle with h | h
  · exact h
  · exfalso
    have heq := hsub.eq_of_length h
    have hni2 : cB.Fullname ∉ invalid := by simpa using hni
    have hmem2 : cB ∈ Buildings.filter (fun b => !(invalid.contains b.Fullname)) :=
      List.mem_filter.mpr ⟨hmem, by simp [hni2]⟩
    rw [← heq] at hmem2
    have := (List.mem_filter.mp hmem2).2
    simp [List.contains_cons] at this

theorem centerLoop_not_outOfFuel (distFn : ℚ → ℚ → ℚ → ℚ → ℚ)
    (Nodes : List (Int × Coordinates)) (Footways : List FootwayInfo)
    (Buildings : List BuildingInfo) (G : Grph) (midLat midLon : ℚ) (p1ID p2ID : Int) :
    ∀ (fuel : ℕ) (invalid : List String) (centerB : BuildingInfo) (tr : List Ev),
      centerB ∈ Buildings → invalid.contains centerB.Fullname = false →
      (Buildings.filter (fun b => !(invalid.contains b.Fullname))).length ≤ fuel →
      (centerLoop distFn Nodes Footways Buildings G midLat midLon p1ID p2ID
          fuel invalid centerB tr).1 ≠ QOutcome.outOfFuel
  | 0, invalid, centerB, tr => by
    intro hmem hni hfuel
    exfalso
    have hni2 : centerB.Fullname ∉ invalid := by simpa using hni
    have hmem2 : centerB ∈ Buildings.filter (fun b => !(invalid.contains b.Fullname)) :=
      List.mem_filter.mpr ⟨hmem, by simp [hni2]⟩
    have hpos := List.length_pos_of_mem hmem2
    omega
  | fuel + 1, invalid, centerB, tr => by
    intro hmem hni hfuel
    unfold centerLoop
    split
    · simp
    · rename_i cB hsel
      have hvalid := gcbi_center_valid hsel
      split
      · simp
      · rename_i cCoords hcn
        split
        · rename_i r1 r2 hd1 hd2
          by_cases hleg : r1.1 = Dbl.fin (-1) ∨ r2.1 = Dbl.fin (-1)
          · rw [if_pos hleg]
            apply centerLoop_not_outOfFuel distFn Nodes Footways Buildings G
              midLat midLon p1ID p2ID fuel
              (centerB.Fullname :: invalid) cB _ hvalid.1 hvalid.2
            have hlt := filter_length_lt hmem hni
            omega
          · rw [if_neg hleg]
            simp
        · simp

/-- C5: for every meeting-point query, the retry cycle between center
selection and pathing stays within (number of buildings) iterations: with
that iteration budget the query model never reports fuel exhaustion, because
every failing iteration adds the failed center's full name (not yet
excluded, since selection skips excluded names) to the exclusion set, and
the candidate pool is finite. -/
theorem selector_retry_bounded (distFn : ℚ → ℚ → ℚ → ℚ → ℚ)
    (midFn : ℚ → ℚ → ℚ → ℚ → ℚ × ℚ) (Nodes : List (Int × Coordinates))
    (Footways : List FootwayInfo) (Buildings : List BuildingInfo) (G : Grph)
    (i1 i2 : Int) :
    (runQuery distFn midFn Nodes Footways Buildings G i1 i2).1 ≠ QOutcome.outOfFuel := by
  unfold runQuery
  split
  · rename_i p1B p2B
    split
    · simp
    · rename_i centerB hc
      have hvalid := gcbi_center_valid hc
      split
      · rename_i p1C p2C cC hn1 hn2 hnc
        split
        · rename_i r1 r2 rv hd1 hd2 hdv
          by_cases hv : rv.1 = Dbl.fin (-1)
          · rw [if_pos hv]
            simp
          · rw [if_neg hv]
            by_cases hleg : r1.1 = Dbl.fin (-1) ∨ r2.1 = Dbl.fin (-1)
            · rw [if_pos hleg]
              apply centerLoop_not_outOfFuel distFn Nodes Footways Buildings G
                _ _ p1C.ID p2C.ID Buildings.length [] centerB _
                hvalid.1 hvalid.2
              have hfe : (Buildings.filter
                  (fun b => !(List.contains [] b.Fullname))).length =
                  Buildings.length := by
                simp
              omega
            · rw [if_neg hleg]
              simp
        · simp
      · simp
  · simp

/- Concrete query scenarios.  `qDist`/`qMid` are concrete stand-ins for the
external geodesic primitives (excluded by the spec and taken as parameters
of the model): a squared-Euclidean distance and the coordinate-wise
midpoint.  Any primitives realising the same relative distances produce the
same control flow. -/

/-- Concrete distance primitive: squared Euclidean distance on (lat, lon). -/
def qDist (la1 lo1 la2 lo2 : ℚ) : ℚ :=
  (la1 - la2) * (la1 - la2) + (lo1 - lo2) * (lo1 - lo2)

/-- Concrete midpoint primitive: coordinate-wise mean. -/
def qMid (la1 lo1 la2 lo2 : ℚ) : ℚ × ℚ :=
  ((la1 + la2) / 2, (lo1 + lo2) / 2)

/- Scenario for C3: nodes 1 and 2 are connected (one footway); nodes 4 and 5
lie on single-node footways, so they are nearest-node candidates but have no
edges; node 3 is in the node map but on no footway, so it is an isolated
graph vertex that the scan pops before nodes 4 and 5.  The four buildings
come in two duplicate-Fullname pairs: the endpoints "Alpha"/"Beta" at nodes
1/2, and a second "Alpha" near the midpoint resolving to isolated node 4,
then a second "Beta" resolving to isolated node 5.  Every candidate center
therefore fails the pathing check until the exclusion set holds every full
name. -/

def c3Nodes : List (Int × Coordinates) :=
  [(1, ⟨1, 0, 0⟩), (2, ⟨2, 20, 20⟩), (3, ⟨3, 50, 50⟩), (4, ⟨4, 10, 10⟩), (5, ⟨5, 11, 11⟩)]

def c3Footways : List FootwayInfo := [⟨[1, 2]⟩, ⟨[4]⟩, ⟨[5]⟩]

def c3Buildings : List BuildingInfo :=
  [⟨"Alpha", "A", ⟨1, 0, 0⟩⟩, ⟨"Beta", "B", ⟨2, 20, 20⟩⟩,
   ⟨"Alpha", "A2", ⟨4, 10, 10⟩⟩, ⟨"Beta", "B2", ⟨5, 11, 11⟩⟩]

/-- The graph the loading code builds from `c3Nodes`/`c3Footways`: all five
node IDs as vertices, one bidirectional footway edge with the
`qDist`-weight of its endpoints. -/
def c3G : Grph := applyOps [Op.addV 1, Op.addV 2, Op.addV 3, Op.addV 4, Op.addV 5,
  Op.addE 1 2 800, Op.addE 2 1 800]

/-- C3: refuted by the code.  In the `c3` scenario every candidate center
eventually fails the pathing check, the exclusion set absorbs both full
names, `getCenterBuildingIndex` returns `-1`, and the query ends in the
out-of-range access `Buildings.at(-1)` (application.cpp line 320; the
comment at line 252 acknowledges the hazard) — not in a NoValidMeetingPoint
failure, which the code does not implement. -/
theorem selector_exhaustion_index_error :
    (runQuery qDist qMid c3Nodes c3Footways c3Buildings c3G 0 1).1 =
      QOutcome.indexError := by decide

/- Scenario for C4: the two endpoint buildings resolve to nodes 1 and 2,
which are mutually disconnected; node 0 is a third isolated vertex that the
scan pops first, so both the direct run and the second center leg return the
`-1` sentinel. -/

def c4Nodes : List (Int × Coordinates) :=
  [(0, ⟨0, 100, 100⟩), (1, ⟨1, 0, 0⟩), (2, ⟨2, 0, 2⟩)]

def c4Footways : List FootwayInfo := [⟨[1]⟩, ⟨[2]⟩]

def c4Buildings : List BuildingInfo :=
  [⟨"PlaceA", "PA", ⟨1, 0, 0⟩⟩, ⟨"PlaceB", "PB", ⟨2, 0, 2⟩⟩]

def c4G : Grph := applyOps [Op.addV 0, Op.addV 1, Op.addV 2]

/- A second disconnected scenario without the extra isolated node: the
direct run then pops the target's own infinite-distance entry, returns
`INF` instead of `-1`, and the disconnection check is evaded entirely. -/

def c4bNodes : List (Int × Coordinates) := [(1, ⟨1, 0, 0⟩), (2, ⟨2, 0, 2⟩)]

def c4bFootways : List FootwayInfo := [⟨[1]⟩, ⟨[2]⟩]

def c4bBuildings : List BuildingInfo :=
  [⟨"PlaceA", "PA", ⟨1, 0, 0⟩⟩, ⟨"PlaceB", "PB", ⟨2, 0, 2⟩⟩]

def c4bG : Grph := applyOps [Op.addV 1, Op.addV 2]

/-- C4 counterexample.  First scenario (`c4`): the two endpoints are
mutually disconnected and the query does end in DestinationUnreachable, but
only after a center candidate has been selected and both center-leg
shortest-path runs have been executed — the trace records the center
selection and the two center legs (source 1 to center 1, source 2 to center
1) before the direct endpoint check (1 to 2), refuting "no center
selection, no center-leg shortest-path run".  Second scenario (`c4b`): the
endpoints are again mutually disconnected (both totally isolated — no
neighbors at all), yet the query does not return DestinationUnreachable: the
direct run returns `INF` rather than `-1`, the check is evaded, and a
"success" carrying the numeric `INF` as a distance is reported, refuting
"the Selector returns the failure reason DestinationUnreachable". -/
theorem dest_unreachable_after_center_eval :
    ((runQuery qDist qMid c4Nodes c4Footways c4Buildings c4G 0 1).1 =
        QOutcome.destinationUnreachable ∧
      (runQuery qDist qMid c4Nodes c4Footways c4Buildings c4G 0 1).2 =
        [Ev.selectCenter 0, Ev.dijk 1 1, Ev.dijk 2 1, Ev.dijk 1 2]) ∧
    (Grph.neighbors c4bG 1 = [] ∧ Grph.neighbors c4bG 2 = [] ∧
      runQuery qDist qMid c4bNodes c4bFootways c4bBuildings c4bG 0 1 =
        (QOutcome.success ⟨"PlaceA", "PA", ⟨1, 0, 0⟩⟩ (Dbl.fin 0) Dbl.inf [1] [1],
          [Ev.selectCenter 0, Ev.dijk 1 1, Ev.dijk 2 1, Ev.dijk 1 2])) := by
  exact ⟨⟨by decide, by decide⟩, by decide, by decide, by decide⟩

/-- C4 (amended): whenever the direct endpoint-to-endpoint run returns the
`-1` unreachable sentinel, the query fails with DestinationUnreachable
before any retry: the exclusion set is never populated and no second center
is evaluated — but the initial center selection and both center-leg runs do
happen first, as the returned trace shows. -/
theorem destination_unreachable_no_retry (distFn : ℚ → ℚ → ℚ → ℚ → ℚ)
    (midFn : ℚ → ℚ → ℚ → ℚ → ℚ × ℚ) (Nodes : List (Int × Coordinates))
    (Footways : List FootwayInfo) (Buildings : List BuildingInfo) (G : Grph)
    (i1 i2 : Int) (p1B p2B centerB : BuildingInfo) (p1C p2C cC : Coordinates)
    (r1 r2 : Dbl × List Int) (pv : List Int)
    (h1 : atIdx Buildings i1 = some p1B) (h2 : atIdx Buildings i2 = some p2B)
    (hc : atIdx Buildings
        (getCenterBuildingIndex distFn Buildings
          (midFn p1B.Coords.Lat p1B.Coords.Lon p2B.Coords.Lat p2B.Coords.Lon).1
          (midFn p1B.Coords.Lat p1B.Coords.Lon p2B.Coords.Lat p2B.Coords.Lon).2 [])
        = some centerB)
    (hn1 : getClosestNode distFn Nodes Footways p1B = some p1C)
    (hn2 : getClosestNode distFn Nodes Footways p2B = some p2C)
    (hnc : getClosestNode distFn Nodes Footways centerB = some cC)
    (hd1 : Dijkstra G p1C.ID cC.ID = some r1)
    (hd2 : Dijkstra G p2C.ID cC.ID = some r2)
    (hdv : Dijkstra G p1C.ID p2C.ID = some (Dbl.fin (-1), pv)) :
    runQuery distFn midFn Nodes Footways Buildings G i1 i2 =
      (QOutcome.destinationUnreachable,
        [Ev.selectCenter
            (getCenterBuildingIndex distFn Buildings
              (midFn p1B.Coords.Lat p1B.Coords.Lon p2B.Coords.Lat p2B.Coords.Lon).1
              (midFn p1B.Coords.Lat p1B.Coords.Lon p2B.Coords.Lat p2B.Coords.Lon).2 []),
          Ev.dijk p1C.ID cC.ID, Ev.dijk p2C.ID cC.ID, Ev.dijk p1C.ID p2C.ID]) := by
  unfold runQuery
  rw [h1, h2]
  simp only []
  rw [hc]
  simp only []
  rw [hn1, hn2, hnc]
  simp only []
  rw [hd1, hd2, hdv]
  simp

/-- C4 witness: the amended statement applied to the concrete `c4` scenario,
with every hypothesis discharged by evaluation. -/
theorem destination_unreachable_no_retry_witness :
    runQuery qDist qMid c4Nodes c4Footways c4Buildings c4G 0 1 =
      (QOutcome.destinationUnreachable,
        [Ev.selectCenter 0, Ev.dijk 1 1, Ev.dijk 2 1, Ev.dijk 1 2]) :=
  destination_unreachable_no_retry qDist qMid c4Nodes c4Footways c4Buildings c4G 0 1
    ⟨"PlaceA", "PA", ⟨1, 0, 0⟩⟩ ⟨"PlaceB", "PB", ⟨2, 0, 2⟩⟩ ⟨"PlaceA", "PA", ⟨1, 0, 0⟩⟩
    ⟨1, 0, 0⟩ ⟨2, 0, 2⟩ ⟨1, 0, 0⟩ (Dbl.fin 0, [1]) (Dbl.fin (-1), []) []
    (by decide) (by decide) (by decide) (by decide) (by decide) (by decide)
    (by decide) (by decide) (by decide)

/- Invariants of the Dijkstra scan, used to settle the missing-target
behaviour: every queue entry names a graph vertex, and every graph vertex
has an entry in the `distances` map, so no `.at` throws and the final
`currentV` is always a graph vertex. -/

/-- Every queue entry of the state names a graph vertex. -/
def QInv (g : Grph) (st : DState) : Prop := ∀ p ∈ st.q, p.1 ∈ g.Vertices

/-- Every graph vertex has a `distances` entry. -/
def DKeys (g : Grph) (st : DState) : Prop :=
  ∀ v ∈ g.Vertices, (lookupA st.dists v).isSome = true

theorem popMin_mem (a : Int × Dbl) : ∀ (t : List (Int × Dbl)),
    ((popMin a t).1 = a ∨ (popMin a t).1 ∈ t) ∧
    (∀ x ∈ (popMin a t).2, x = a ∨ x ∈ t)
  | [] => ⟨Or.inl rfl, by intro x hx; simp [popMin] at hx⟩
  | b :: t => by
    have ih := popMin_mem b t
    unfold popMin
    split
    · constructor
      · rcases ih.1 with h | h
        · rw [h]; right; exact List.mem_cons_self b t
        · right; exact List.mem_cons_of_mem b h
      · intro x hx
        rcases List.mem_cons.mp hx with hx | hx
        · exact Or.inl hx
        · rcases ih.2 x hx with h | h
          · right; rw [h]; exact List.mem_cons_self b t
          · right; exact List.mem_cons_of_mem b h
    · exact ⟨Or.inl rfl, fun x hx => Or.inr hx⟩

theorem lookupA_erase_ne {α : Type} (k x : Int) (h : x ≠ k) :
    ∀ (l : List (Int × α)), lookupA (eraseA l k) x = lookupA l x
  | [] => rfl
  | (pk, pv) :: t => by
    by_cases hk : pk = k
    · subst hk
      have hx : pk ≠ x := fun he => h he.symm
      simp [eraseA, lookupA, hx]
    · by_cases hx : pk = x
      · subst hx
        simp [eraseA, lookupA, hk]
      · simp [eraseA, lookupA, hk, hx, lookupA_erase_ne k x h t]

theorem lookupA_emplace_self {α : Type} (l : List (Int × α)) (k : Int) (v : α) :
    (lookupA (emplaceA l k v) k).isSome = true := by
  unfold emplaceA
  by_cases hp : (lookupA l k).isSome = true
  · rw [if_pos hp]; exact hp
  · have hnone : lookupA l k = none := by
      cases hq : lookupA l k with
      | none => rfl
      | some w => rw [hq] at hp; simp at hp
    rw [if_neg hp, lookupA_append_none _ hnone]
    simp [lookupA]

theorem lookupA_emplace_ne {α : Type} (l : List (Int × α)) (k : Int) (v : α)
    (x : Int) (h : x ≠ k) : lookupA (emplaceA l k v) x = lookupA l x := by
  unfold emplaceA
  by_cases hp : (lookupA l k).isSome = true
  · rw [if_pos hp]
  · rw [if_neg hp]
    cases hq : lookupA l x with
    | none =>
      rw [lookupA_append_none _ hq]
      have hk : k ≠ x := fun he => h he.symm
      simp [lookupA, hk]
    | some w => exact lookupA_append_some _ hq

theorem sortedInsert_mem (x : Int) : ∀ (l : List Int) (a : Int),
    x ∈ Grph.sortedInsert l a → x = a ∨ x ∈ l
  | [], a => by intro h; simp [Grph.sortedInsert] at h; exact Or.inl h
  | b :: t, a => by
    intro h
    unfold Grph.sortedInsert at h
    by_cases h1 : a < b
    · rw [if_pos h1] at h
      rcases List.mem_cons.mp h with h | h
      · exact Or.inl h
      · exact Or.inr h
    · rw [if_neg h1] at h
      by_cases h2 : a = b
      · rw [if_pos h2] at h
        exact Or.inr h
      · rw [if_neg h2] at h
        rcases List.mem_cons.mp h with h | h
        · exact Or.inr (h ▸ List.mem_cons_self b t)
        · rcases sortedInsert_mem x t a h with h3 | h3
          · exact Or.inl h3
          · exact Or.inr (List.mem_cons_of_mem b h3)

theorem foldl_sortedInsert_mem (x : Int) : ∀ (ts : List Int) (acc : List Int),
    x ∈ ts.foldl Grph.sortedInsert acc → x ∈ acc ∨ x ∈ ts
  | [], acc => fun h => Or.inl h
  | a :: t, acc => by
    intro h
    rcases foldl_sortedInsert_mem x t (Grph.sortedInsert acc a) h with h2 | h2
    · rcases sortedInsert_mem x acc a h2 with h3 | h3
      · exact Or.inr (h3 ▸ List.mem_cons_self a t)
      · exact Or.inl h3
    · exact Or.inr (List.mem_cons_of_mem a h2)

theorem neighbors_subset {g : Grph} (hw : WfG g) (v : Int) :
    ∀ x ∈ Grph.neighbors g v, x ∈ g.Vertices := by
  intro x hx
  unfold Grph.neighbors at hx
  cases hes : lookupA g.edgeMap v with
  | none => rw [hes] at hx; simp at hx
  | some es =>
    rw [hes] at hx
    rcases foldl_sortedInsert_mem x (es.map EdgeData.toVert) [] hx with h | h
    · simp at h
    · simp only [List.mem_map] at h
      obtain ⟨e, he, hte⟩ := h
      exact hte ▸ hw.2.2.2.2.2.1 _ (lookupA_eq_some_mem hes) e he

theorem relaxAll_inv (g : Grph) : ∀ (adjs : List Int) (st : DState),
    (∀ x ∈ adjs, x ∈ g.Vertices) → st.cur ∈ g.Vertices →
    DKeys g st → QInv g st →
    ∃ st2, relaxAll g adjs st = some st2 ∧ DKeys g st2 ∧ QInv g st2 ∧
      st2.cur = st.cur
  | [], st => by
    intro _ hcur hd hq
    exact ⟨st, rfl, hd, hq, rfl⟩
  | adjV :: rest, st => by
    intro hadj hcur hd hq
    have hadjV : adjV ∈ g.Vertices := hadj adjV (List.mem_cons_self adjV rest)
    obtain ⟨dc, hdc⟩ := lookupA_isSome_exists (hd st.cur hcur)
    obtain ⟨da, hda⟩ := lookupA_isSome_exists (hd adjV hadjV)
    have hrest : ∀ x ∈ rest, x ∈ g.Vertices :=
      fun x hx => hadj x (List.mem_cons_of_mem adjV hx)
    unfold relaxAll
    rw [hdc, hda]
    simp only []
    split
    · have hd2 : DKeys g
          { st with
            dists := emplaceA (eraseA st.dists adjV) adjV
              (dc.add (Dbl.fin (refWeight g st.cur adjV st.ew)))
            preds := emplaceA (eraseA st.preds adjV) adjV st.cur
            q := st.q ++ [(adjV, dc.add (Dbl.fin (refWeight g st.cur adjV st.ew)))]
            ew := refWeight g st.cur adjV st.ew } := by
        intro v hv
        by_cases hva : v = adjV
        · subst hva
          exact lookupA_emplace_self _ _ _
        · simp only []
          rw [lookupA_emplace_ne _ _ _ _ hva, lookupA_erase_ne _ _ hva]
          exact hd v hv
      have hq2 : QInv g
          { st with
            dists := emplaceA (eraseA st.dists adjV) adjV
              (dc.add (Dbl.fin (refWeight g st.cur adjV st.ew)))
            preds := emplaceA (eraseA st.preds adjV) adjV st.cur
            q := st.q ++ [(adjV, dc.add (Dbl.fin (refWeight g st.cur adjV st.ew)))]
            ew := refWeight g st.cur adjV st.ew } := by
        intro p hp
        rcases List.mem_append.mp hp with hp | hp
        · exact hq p hp
        · have hpe : p = (adjV, dc.add (Dbl.fin (refWeight g st.cur adjV st.ew))) := by
            simpa using hp
          rw [hpe]
          exact hadjV
      obtain ⟨st2, heq, ha, hb, hc⟩ := relaxAll_inv g rest
        { st with
          dists := emplaceA (eraseA st.dists adjV) adjV
            (dc.add (Dbl.fin (refWeight g st.cur adjV st.ew)))
          preds := emplaceA (eraseA st.preds adjV) adjV st.cur
          q := st.q ++ [(adjV, dc.add (Dbl.fin (refWeight g st.cur adjV st.ew)))]
          ew := refWeight g st.cur adjV st.ew } hrest hcur hd2 hq2
      exact ⟨st2, heq, ha, hb, hc⟩
    · obtain ⟨st2, heq, ha, hb, hc⟩ :=
        relaxAll_inv g rest { st with ew := refWeight g st.cur adjV st.ew }
          hrest hcur hd hq
      exact ⟨st2, heq, ha, hb, hc⟩

theorem dLoop_inv (g : Grph) (hw : WfG g) (endV : Int) :
    ∀ (fuel : ℕ) (st : DState), st.cur ∈ g.Vertices → DKeys g st → QInv g st →
      ∃ st2, dLoop g endV fuel st = some st2 ∧ st2.cur ∈ g.Vertices
  | 0, st => fun hcur _ _ => ⟨st, rfl, hcur⟩
  | fuel + 1, st => by
    intro hcur hd hq
    unfold dLoop
    split
    · exact ⟨st, rfl, hcur⟩
    · rename_i e t hqe
      have hpop : (popMin e t).1.1 ∈ g.Vertices := by
        have hmem := (popMin_mem e t).1
        rcases hmem with h | h
        · rw [h]
          exact hq e (hqe ▸ List.mem_cons_self e t)
        · exact hq _ (hqe ▸ List.mem_cons_of_mem e h)
      have hqrest : QInv g { st with q := (popMin e t).2, cur := (popMin e t).1.1 } := by
        intro p hp
        rcases (popMin_mem e t).2 p hp with h | h
        · rw [h]
          exact hq e (hqe ▸ List.mem_cons_self e t)
        · exact hq p (hqe ▸ List.mem_cons_of_mem e h)
      obtain ⟨dcur, hdcur⟩ := lookupA_isSome_exists (hd _ hpop)
      rw [hdcur]
      simp only []
      split
      · exact ⟨_, rfl, hpop⟩
      · split
        · exact dLoop_inv g hw endV fuel _ hpop hd hqrest
        · have hnbr := neighbors_subset hw (popMin e t).1.1
          have hqvis : QInv g
              { st with
                q := (popMin e t).2
                cur := (popMin e t).1.1
                visited := st.visited ++ [(popMin e t).1.1] } := hqrest
          obtain ⟨st2, heq, hd2, hq2, hc2⟩ :=
            relaxAll_inv g (Grph.neighbors g (popMin e t).1.1)
              { st with
                q := (popMin e t).2
                cur := (popMin e t).1.1
                visited := st.visited ++ [(popMin e t).1.1] } hnbr hpop hd hqvis
          rw [heq]
          simp only []
          split
          · exact ⟨st2, rfl, hc2 ▸ hpop⟩
          · exact dLoop_inv g hw endV fuel st2 (hc2 ▸ hpop) hd2 hq2

theorem initAll_dists_isSome : ∀ (vs : List Int) (st : DState) (v : Int),
    (v ∈ vs ∨ (lookupA st.dists v).isSome = true) →
    (lookupA (initAll vs st).dists v).isSome = true
  | [], st, v => by
    intro h
    rcases h with h | h
    · simp at h
    · exact h
  | u :: t, st, v => by
    intro h
    unfold initAll
    apply initAll_dists_isSome t _ v
    by_cases hv : v = u
    · subst hv
      right
      exact lookupA_emplace_self _ _ _
    · rcases h with h | h
      · rcases List.mem_cons.mp h with h2 | h2
        · exact absurd h2 hv
        · exact Or.inl h2
      · right
        simp only []
        rw [lookupA_emplace_ne _ _ _ _ hv]
        exact h

theorem initAll_q_mem : ∀ (vs : List Int) (st : DState) (p : Int × Dbl),
    p ∈ (initAll vs st).q → p ∈ st.q ∨ p.1 ∈ vs
  | [], _, p => fun h => Or.inl h
  | u :: t, st, p => by
    intro h
    unfold initAll at h
    rcases initAll_q_mem t _ p h with h2 | h2
    · simp only [] at h2
      rcases List.mem_append.mp h2 with h3 | h3
      · exact Or.inl h3
      · right
        have : p.1 = u := by
          have := List.mem_singleton.mp h3
          rw [this]
        rw [this]
        exact List.mem_cons_self u t
    · exact Or.inr (List.mem_cons_of_mem u h2)

theorem initAll_fields : ∀ (vs : List Int) (st : DState),
    (initAll vs st).cur = st.cur ∧ (initAll vs st).visited = st.visited
  | [], _ => ⟨rfl, rfl⟩
  | u :: t, st => by
    unfold initAll
    exact initAll_fields t _

/-- C10: running the engine from a present source towards a target vertex
absent from the (well-formed) graph neither crashes (no `.at` throws) nor
returns a numeric distance: it returns the `-1` unreachable sentinel with an
empty path, because every popped `currentV` is a graph vertex and thus never
equals the missing target. -/
theorem dijkstra_missing_target_spec (g : Grph) (s e : Int)
    (hw : WfG g) (hs : s ∈ g.Vertices) (he : e ∉ g.Vertices) :
    Dijkstra g s e = some (Dbl.fin (-1), []) := by
  have hsome : (lookupA (dInitState g s).dists s).isSome = true := by
    unfold dInitState
    exact initAll_dists_isSome _ _ _ (Or.inl hs)
  have hcur : (dStartState g s).cur = s := by
    unfold dStartState dInitState
    exact (initAll_fields _ _).1
  have hd : DKeys g (dStartState g s) := by
    intro v hv
    unfold dStartState
    simp only []
    rw [setA_lookup_isSome]
    unfold dInitState
    exact initAll_dists_isSome _ _ _ (Or.inl hv)
  have hq : QInv g (dStartState g s) := by
    intro p hp
    unfold dStartState at hp
    simp only [] at hp
    rcases List.mem_append.mp hp with hp | hp
    · rcases initAll_q_mem _ _ p hp with h | h
      · simp at h
      · exact h
    · have hps : p.1 = s := by
        have := List.mem_singleton.mp hp
        rw [this]
      exact hps ▸ hs
  obtain ⟨stF, heq, hfin⟩ :=
    dLoop_inv g hw e (dFuel g) (dStartState g s) (by rw [hcur]; exact hs) hd hq
  unfold Dijkstra
  rw [if_pos hsome, heq]
  simp only []
  rw [if_neg (fun hce : stF.cur = e => he (hce ▸ hfin))]

/-- C10 witness: a concrete one-vertex well-formed graph with present source
1 and absent target 2 returns the sentinel pair. -/
theorem dijkstra_missing_target_spec_witness :
    WfG (applyOps [Op.addV 1]) ∧ (1 : Int) ∈ (applyOps [Op.addV 1]).Vertices ∧
    (2 : Int) ∉ (applyOps [Op.addV 1]).Vertices ∧
    Dijkstra (applyOps [Op.addV 1]) 1 2 = some (Dbl.fin (-1), []) :=
  ⟨by decide, by decide, by decide,
    dijkstra_missing_target_spec (applyOps [Op.addV 1]) 1 2
      (by decide) (by decide) (by decide)⟩
